import Mathlib

/-!
# Verification of the roborev job-queue core against its specification

This file gives a shallow embedding of the roborev job queue, daemon cancel
endpoint, client wait/cancel protocol (`cmd/roborev/wait.go`) and the raw TOML
config writer (`setConfigKey` / `setRawMapKey`), and proves the spec's claims
about them.

The storage layer (`internal/storage`) and the daemon handler
(`internal/daemon`) themselves are not part of the provided sources (only
their tests are), so those components are modelled from the specification, as
marked on each definition.  `wait.go` and the config command are translated
directly from the source.
-/

namespace Roborev

/-! ## Verdict parsing

Modelled from the spec: `internal/storage`'s verdict parser is not in the
sources.  The spec says reviews are parsed "using the textual convention
`## Verdict: PASS|FAIL` (case-insensitive), absence of an explicit verdict
defaults to a heuristic fallback (e.g., presence of flagged findings ⇒ fail)".
Flagged findings are severity bullet lines such as `- High — ...`. -/

/-- `startsWithL s pat` : the char list `pat` is an initial segment of `s`. -/
def startsWithL : List Char → List Char → Bool
  | _, [] => true
  | [], _ :: _ => false
  | c :: cs, d :: ds => c == d && startsWithL cs ds

/-- `hasSubL s pat` : the char list `pat` occurs contiguously inside `s`. -/
def hasSubL : List Char → List Char → Bool
  | [], pat => pat.isEmpty
  | c :: cs, pat => startsWithL (c :: cs) pat || hasSubL cs pat

/-- Lower-case a char list (ASCII, via `Char.toLower`). -/
def lowerL (l : List Char) : List Char := l.map Char.toLower

/-- Modelled from the spec: a flagged finding is a severity bullet such as
`- High — ...` (any of the usual severity words, case-insensitive). -/
def hasFlaggedFinding (t : List Char) : Bool :=
  hasSubL t "- critical".data || hasSubL t "- high".data ||
  hasSubL t "- medium".data || hasSubL t "- low".data

/-- Modelled from the spec: `ParseVerdict` — `true` means PASS.  An explicit
`## Verdict: PASS|FAIL` marker (case-insensitive) wins; otherwise the
heuristic fallback: a flagged finding means fail, else pass. -/
def parseVerdict (output : String) : Bool :=
  let t := lowerL output.data
  if hasSubL t "## verdict: pass".data then true
  else if hasSubL t "## verdict: fail".data then false
  else if hasFlaggedFinding t then false
  else true

/-! ## Data model

Modelled from the spec (§3): the `internal/storage` row types.  Timestamps
are modelled as Nat ticks of the store's logical clock. -/

inductive JobStatus where
  | queued | running | done | failed | canceled | applied | rebased
deriving DecidableEq, Repr

structure ReviewJob where
  id : Nat
  gitRef : String
  agent : String
  status : JobStatus
  /-- enqueue-order stamp (`EnqueuedAt`) -/
  seq : Nat
  startedAt : Option Nat
  finishedAt : Option Nat
  claimedBy : Option String
deriving DecidableEq, Repr

structure Review where
  jobID : Nat
  agent : String
  prompt : String
  output : String
  /-- tri-state: `some 1` pass, `some 0` fail, `none` legacy/not computed -/
  verdictBool : Option Nat
deriving DecidableEq, Repr

structure Response where
  jobID : Nat
  responder : String
  response : String
deriving DecidableEq, Repr

/-- Modelled from the spec: the durable Store.  Rows are kept in insertion
order; `nextID` allocates job ids and `clock` is the logical timestamp. -/
structure Store where
  jobs : List ReviewJob
  reviews : List Review
  comments : List Response
  nextID : Nat
  clock : Nat
deriving Repr

inductive StoreErr where
  | notFound | conflict
deriving DecidableEq, Repr

def isQueued (j : ReviewJob) : Bool := j.status == .queued

def findJob (s : Store) (id : Nat) : Option ReviewJob :=
  s.jobs.find? (fun j => j.id == id)

def findReview (s : Store) (id : Nat) : Option Review :=
  s.reviews.find? (fun r => r.jobID == id)

/-- Modelled from the spec: `EnqueueJob` creates a `queued` row and returns it. -/
def enqueueJob (s : Store) (gitRef agent : String) : Store × ReviewJob :=
  let j : ReviewJob :=
    { id := s.nextID, gitRef := gitRef, agent := agent, status := .queued,
      seq := s.clock, startedAt := none, finishedAt := none, claimedBy := none }
  ({ s with jobs := s.jobs ++ [j], nextID := s.nextID + 1, clock := s.clock + 1 }, j)

/-- The `queued → running` transition stamped by a claim. -/
def markRunning (worker : String) (now : Nat) (j : ReviewJob) : ReviewJob :=
  { j with status := .running, startedAt := some now, claimedBy := some worker }

/-- Claim the first queued job in list order, returning the updated list and
the claimed (now running) job. -/
def claimFirst (worker : String) (now : Nat) :
    List ReviewJob → Option (List ReviewJob × ReviewJob)
  | [] => none
  | j :: rest =>
    if isQueued j then
      some (markRunning worker now j :: rest, markRunning worker now j)
    else
      match claimFirst worker now rest with
      | none => none
      | some (rest2, cj) => some (j :: rest2, cj)

/-- Modelled from the spec: `ClaimJob(worker)` atomically selects the oldest
queued job (FIFO by enqueue order; the store keeps `jobs` in enqueue order)
and transitions it to `running`, stamping `StartedAt` and `ClaimedBy`.  When
no job is queued it returns `none` ("no job"), not an error. -/
def claimJob (s : Store) (worker : String) : Store × Option ReviewJob :=
  match claimFirst worker s.clock s.jobs with
  | none => (s, none)
  | some (jobs2, j) => ({ s with jobs := jobs2, clock := s.clock + 1 }, some j)

/-- Modelled from the spec: `CompleteJob` — only valid from `running`;
stores the Review row (always stamping `VerdictBool` going forward), stamps
`FinishedAt` and transitions to `done`. -/
def completeJob (s : Store) (id : Nat) (agent prompt output : String) :
    Except StoreErr Store :=
  match findJob s id with
  | none => .error .notFound
  | some j =>
    if j.status = .running then
      .ok { s with
        jobs := s.jobs.map (fun j2 =>
          if j2.id == id then { j2 with status := .done, finishedAt := some s.clock }
          else j2),
        reviews := s.reviews ++
          [{ jobID := id, agent := agent, prompt := prompt, output := output,
             verdictBool := some (if parseVerdict output then 1 else 0) }],
        clock := s.clock + 1 }
    else .error .conflict

/-- Modelled from the spec: `CancelJob` — only from `queued` or `running`;
a job that is absent or in any other state surfaces a not-found condition
(never a silent success). -/
def cancelJob (s : Store) (id : Nat) : Except StoreErr Store :=
  match findJob s id with
  | none => .error .notFound
  | some j =>
    if j.status = .queued ∨ j.status = .running then
      .ok { s with
        jobs := s.jobs.map (fun j2 =>
          if j2.id == id then { j2 with status := .canceled, finishedAt := some s.clock }
          else j2),
        clock := s.clock + 1 }
    else .error .notFound

/-- Modelled from the spec: `AddCommentToJob` appends a Response row
regardless of current status; fails (not-found) only if the job is absent. -/
def addCommentToJob (s : Store) (id : Nat) (responder text : String) :
    Except StoreErr (Store × Response) :=
  match findJob s id with
  | none => .error .notFound
  | some _ =>
    let r : Response := { jobID := id, responder := responder, response := text }
    .ok ({ s with comments := s.comments ++ [r] }, r)

/-- Comments of a job, in insertion order. -/
def getCommentsForJob (s : Store) (id : Nat) : List Response :=
  s.comments.filter (fun r => r.jobID == id)

/-- The effective verdict of a review: the stored `VerdictBool` when present,
otherwise recomputed from the stored output text (legacy rows). -/
def effectiveVerdict (r : Review) : String :=
  match r.verdictBool with
  | some b => if b = 0 then "F" else "P"
  | none => if parseVerdict r.output then "P" else "F"

/-- Modelled from the spec: `GetReviewByJobID` — resolves the current
verdict, falling back to recomputing from the stored output text when the
cached boolean is absent.  Returns the review together with the populated
`Job.Verdict` string. -/
def getReviewByJobID (s : Store) (id : Nat) : Except StoreErr (Review × String) :=
  match findReview s id with
  | none => .error .notFound
  | some r => .ok (r, effectiveVerdict r)

/-- Modelled from the spec: `GetJobsWithReviewsByIDs` — batched read as an
association list keyed by job id; unknown ids are simply omitted, an empty
batch yields an empty (non-error) result.  Each existing job is paired with
its review (or `none`) and its `Verdict` populated from the review. -/
def getJobsWithReviewsByIDs (s : Store) (ids : List Nat) :
    List (Nat × ReviewJob × Option Review × Option String) :=
  ids.filterMap (fun id =>
    match findJob s id with
    | none => none
    | some j =>
      let rv := findReview s id
      some (id, j, rv, rv.map effectiveVerdict))

/-! ## Daemon cancel endpoint

Modelled from the spec (§6): `handleCancelJob` — 405 on a non-POST method,
400 when the decoded body has no `job_id` (Go decodes a missing field to 0,
modelled as `none`), 404 when the store rejects the cancel, else 200 with the
job canceled. -/
def handleCancelJob (s : Store) (method : String) (body : Option Nat) :
    Nat × Store :=
  if method ≠ "POST" then (405, s)
  else
    match body with
    | none => (400, s)
    | some id =>
      match cancelJob s id with
      | .error _ => (404, s)
      | .ok s2 => (200, s2)

/-! ## Client wait protocol (`cmd/roborev/wait.go`)

Translated from the source.  Ambient collaborators (git resolution, daemon
liveness, `findJobForCommit`, `waitForJob`) are modelled as a `WaitEnv` of
oracles; each `cmd.Printf` becomes a collected output line. -/

/-- `strconv.ParseInt(s, 10, 64)`: optional sign, at least one decimal
digit, value within the signed 64-bit range. -/
def digitsValAux : List Char → Nat → Option Nat
  | [], acc => some acc
  | c :: cs, acc =>
    if c.isDigit then digitsValAux cs (acc * 10 + (c.toNat - 48)) else none

def digitsVal : List Char → Option Nat
  | [] => none
  | l => digitsValAux l 0

def parseInt64 (s : String) : Option Int :=
  let r : Option Int :=
    match s.data with
    | '+' :: rest => (digitsVal rest).map Int.ofNat
    | '-' :: rest => (digitsVal rest).map (fun n => -(n : Int))
    | l => (digitsVal l).map Int.ofNat
  match r with
  | some v => if -(2 ^ 63) ≤ v ∧ v ≤ 2 ^ 63 - 1 then some v else none
  | none => none

/-- The worker/agent outcome of one `waitForJob` call: `pass` is the nil
error, `notFound` is `ErrJobNotFound`, `failVerdict` is `&exitError{code:1}`
(FAIL verdict), anything else is a plain error. -/
inductive WaitOutcome where
  | pass | notFound | failVerdict
  | otherError (msg : String)
deriving DecidableEq, Repr

/-- Ambient collaborators of the wait command, as oracles.  `repoRoot` /
`mainRoot` are `none` when `git.GetRepoRoot` / `git.GetMainRepoRoot` fail or
return the empty string. -/
structure WaitEnv where
  repoRoot : Option String
  mainRoot : Option String
  /-- `git.ResolveSHA(root, ref)`: `none` models an error. -/
  resolveSHA : String → String → Option String
  /-- `ensureDaemon()` succeeds. -/
  daemonUp : Bool
  /-- `findJobForCommit(root, sha)`: `none` models a nil job (no job found). -/
  findJobForCommit : String → String → Option Int
  /-- `waitForJob(addr, id, ...)` outcome per job id. -/
  waitForJob : Int → WaitOutcome

/-- `resolvedArg`: locally-validated argument data before daemon contact
(`jobID != 0` in the Go struct is the `byID` case). -/
inductive ResolvedArg where
  | byID (jobID : Int)
  | byRef (sha : String) (ref : String)
deriving DecidableEq, Repr

/-- Local validation of one argument of `waitMultiple` (phase 1): with
`--job` parse as a positive integer job id; otherwise try git-ref resolution
first (so numeric-looking SHAs resolve as refs), falling back to integer
parse. -/
def resolveArg (env : WaitEnv) (force : Bool) (arg : String) :
    Except String ResolvedArg :=
  if force then
    match parseInt64 arg with
    | some id => if id > 0 then .ok (.byID id) else .error ("invalid job ID: " ++ arg)
    | none => .error ("invalid job ID: " ++ arg)
  else
    let sha : Option String :=
      match env.repoRoot with
      | some root => env.resolveSHA root arg
      | none => none
    match sha with
    | some h => .ok (.byRef h arg)
    | none =>
      match parseInt64 arg with
      | some id =>
        if id > 0 then .ok (.byID id)
        else .error ("argument \x22" ++ arg ++ "\x22 is not a valid git ref or job ID")
      | none => .error ("argument \x22" ++ arg ++ "\x22 is not a valid git ref or job ID")

/-- Phase 1 of `waitMultiple`: locally validate every argument, failing on
the first invalid one, with no daemon contact. -/
def phase1 (env : WaitEnv) (force : Bool) :
    List String → Except String (List ResolvedArg)
  | [] => .ok []
  | a :: rest =>
    match resolveArg env force a with
    | .error e => .error e
    | .ok r =>
      match phase1 env force rest with
      | .error e => .error e
      | .ok rs => .ok (r :: rs)

inductive Phase3Out where
  | ok (ids : List Int)
  /-- `findJobForCommit` returned nil for this original ref: report and exit 1. -/
  | noJob (ref : String)
deriving DecidableEq, Repr

/-- Phase 3 of `waitMultiple`: resolve git refs to job ids via the daemon,
stopping at the first ref with no job. -/
def phase3 (env : WaitEnv) : List ResolvedArg → Phase3Out
  | [] => .ok []
  | .byID id :: rest =>
    match phase3 env rest with
    | .ok ids => .ok (id :: ids)
    | e => e
  | .byRef sha ref :: rest =>
    let mroot :=
      match env.mainRoot with
      | some m => m
      | none => env.repoRoot.getD ""
    match env.findJobForCommit mroot sha with
    | none => .noJob ref
    | some id =>
      match phase3 env rest with
      | .ok ids => .ok (id :: ids)
      | e => e

/-- The command's result kind: `ok` is a nil error (exit 0), `exit1` is
`&exitError{code: 1}`, `fail` is a plain error (cobra also exits nonzero). -/
inductive CmdOut where
  | ok | exit1
  | fail (msg : String)
deriving DecidableEq, Repr

def exitCode : CmdOut → Nat
  | .ok => 0
  | .exit1 => 1
  | .fail _ => 1

/-- One reported line of the serial report phase of `waitMultiple`. -/
def reportLine (jobID : Int) : WaitOutcome → Option String
  | .pass => none
  | .notFound => some ("Job " ++ toString jobID ++ ": no job found")
  | .failVerdict => some ("Job " ++ toString jobID ++ ": review has issues")
  | .otherError m => some ("Job " ++ toString jobID ++ ": " ++ m)

/-- The serial report phase of `waitMultiple`: iterate results in argument
order; `hasErr` aggregates, lines print only without `--quiet`. -/
def reportResults (quiet : Bool) (results : List (Int × WaitOutcome)) :
    List String × CmdOut :=
  let lines :=
    if quiet then [] else results.filterMap (fun p => reportLine p.1 p.2)
  let hasErr := results.any (fun p => !(p.2 == .pass))
  (lines, if hasErr then .exit1 else .ok)

/-- One concurrent goroutine writes its slot of the results array. -/
def slotWrite (f : Nat → Option (Int × WaitOutcome)) (i : Nat)
    (v : Int × WaitOutcome) : Nat → Option (Int × WaitOutcome) :=
  fun j => if j = i then some v else f j

/-- The concurrent wait phase: goroutines complete in an arbitrary schedule
(list of slot indices); each writes `results[idx] = {jobID, waitForJob jobID}`
into its own slot. -/
def runSched (jobIDs : List Int) (wait : Int → WaitOutcome) :
    List Nat → (Nat → Option (Int × WaitOutcome)) → Nat → Option (Int × WaitOutcome)
  | [], f => f
  | i :: rest, f =>
    match jobIDs[i]? with
    | some id => runSched jobIDs wait rest (slotWrite f i (id, wait id))
    | none => runSched jobIDs wait rest f

/-- Read the results array slots `k, k+1, ..., k+m-1` in order (the serial
read after `wg.Wait()`). -/
def readSlots (f : Nat → Option (Int × WaitOutcome)) (k : Nat) :
    Nat → List (Option (Int × WaitOutcome))
  | 0 => []
  | m + 1 => f k :: readSlots f (k + 1) m

/-- The full result of a wait command run: outcome, printed lines, whether
`ensureDaemon` was reached, the per-job wait results, and the ref/job a
"no job found" report was produced for (if any). -/
structure CmdResult where
  out : CmdOut
  lines : List String
  contacted : Bool
  waited : List (Int × WaitOutcome)
  noJob : Option String
deriving Repr

/-- `waitMultiple`, phases 1–4.  The concurrent phase 4 is written with the
deterministic per-slot results; `runSched`/`readSlots` prove (claim C4) that
any completion schedule fills the array with exactly these values. -/
def waitMultipleModel (env : WaitEnv) (args : List String)
    (force quiet : Bool) : CmdResult :=
  match phase1 env force args with
  | .error e =>
    { out := .fail e, lines := [], contacted := false, waited := [], noJob := none }
  | .ok resolved =>
    if env.daemonUp then
      match phase3 env resolved with
      | .noJob ref =>
        { out := .exit1,
          lines := if quiet then [] else ["No job found for " ++ ref],
          contacted := true, waited := [], noJob := some ref }
      | .ok ids =>
        let results := ids.map (fun id => (id, env.waitForJob id))
        let rep := reportResults quiet results
        { out := rep.2, lines := rep.1, contacted := true,
          waited := results, noJob := none }
    else
      { out := .fail "daemon not running", lines := [], contacted := true,
        waited := [], noJob := none }

/-- The "No job found for <ref>" outcome of the single-target path: printed
unless quiet, `exitError{1}`. -/
def noJobResult (quiet : Bool) (ref : String) : CmdResult :=
  { out := .exit1, lines := if quiet then [] else ["No job found for " ++ ref],
    contacted := true, waited := [], noJob := some ref }

/-- The error mapping after `waitForJob` in the single-target path (lines
142–159 of `wait.go`): nil is exit 0; `ErrJobNotFound` reports and exits 1;
an `exitError` (fail verdict) passes through; any other error propagates. -/
def waitOutcomeResult (quiet : Bool) (id : Int) : WaitOutcome → CmdResult
  | .pass =>
    { out := .ok, lines := [], contacted := true, waited := [(id, .pass)],
      noJob := none }
  | .notFound =>
    { out := .exit1,
      lines := if quiet then [] else ["No job found for job " ++ toString id],
      contacted := true, waited := [(id, .notFound)],
      noJob := some ("job " ++ toString id) }
  | .failVerdict =>
    { out := .exit1, lines := [], contacted := true,
      waited := [(id, .failVerdict)], noJob := none }
  | .otherError m =>
    { out := .fail m, lines := [], contacted := true,
      waited := [(id, .otherError m)], noJob := none }

/-- Wait on the job resolved from the ref (or fail with "no job found"). -/
def resolveAndWait (env : WaitEnv) (quiet : Bool) (ref : String) :
    Option Int → CmdResult
  | none => noJobResult quiet ref
  | some id => waitOutcomeResult quiet id (env.waitForJob id)

/-- The single-target path of `waitCmd` (zero or one argument), lines 70–159
of `wait.go`: resolve locally (ref, sentinel `""`, or job id, sentinel `0`),
validate the git ref, then contact the daemon, resolve the ref to a job and
wait for it. -/
def waitSingleStep2 (env : WaitEnv) (quiet : Bool) (ref : String)
    (jobID : Int) : CmdResult :=
  let sha : Option String :=
    if ref ≠ "" then
      match env.resolveSHA (env.repoRoot.getD "") ref with
      | some h => some h
      | none => none
    else none
  if ref ≠ "" ∧ sha = none then
    { out := .fail ("invalid git ref: " ++ ref), lines := [],
      contacted := false, waited := [], noJob := none }
  else if env.daemonUp then
    let found : Option Int :=
      match sha with
      | some h =>
        if jobID = 0 then
          let mroot :=
            match env.mainRoot with
            | some m => m
            | none => env.repoRoot.getD ""
          env.findJobForCommit mroot h
        else some jobID
      | none => some jobID
    resolveAndWait env quiet ref found
  else
    { out := .fail "daemon not running", lines := [], contacted := true,
      waited := [], noJob := none }

def mkLocalFail (msg : String) : CmdResult :=
  { out := .fail msg, lines := [], contacted := false, waited := [], noJob := none }

def waitSingleModel (env : WaitEnv) (shaFlag : String) (force quiet : Bool)
    (args : List String) : CmdResult :=
  if shaFlag ≠ "" then waitSingleStep2 env quiet shaFlag 0
  else
    match args with
    | arg :: _ =>
      if force then
        match parseInt64 arg with
        | some id =>
          if id > 0 then waitSingleStep2 env quiet "" id
          else mkLocalFail ("invalid job ID: " ++ arg)
        | none => mkLocalFail ("invalid job ID: " ++ arg)
      else
        let refOk : Bool :=
          match env.repoRoot with
          | some root => (env.resolveSHA root arg).isSome
          | none => false
        if refOk then waitSingleStep2 env quiet arg 0
        else
          match parseInt64 arg with
          | some id =>
            if id > 0 then waitSingleStep2 env quiet "" id
            else mkLocalFail ("argument \x22" ++ arg ++ "\x22 is not a valid git ref or job ID")
          | none => mkLocalFail ("argument \x22" ++ arg ++ "\x22 is not a valid git ref or job ID")
    | [] => waitSingleStep2 env quiet "HEAD" 0

/-- The `wait` command entry (`RunE`): flag validation, then dispatch to the
multi-argument path or the single-target path. -/
def waitCmdModel (env : WaitEnv) (shaFlag : String) (force quiet : Bool)
    (args : List String) : CmdResult :=
  if args.length > 0 ∧ shaFlag ≠ "" then
    mkLocalFail "cannot use both a positional argument and --sha"
  else if force ∧ args.length = 0 then
    mkLocalFail "--job requires a job ID argument"
  else if args.length > 1 then waitMultipleModel env args force quiet
  else waitSingleModel env shaFlag force quiet args

/-! ## Config set (`setConfigKey` / `setRawMapKey`)

`setRawMapKey` and the surrounding `setConfigKey` flow are translated from
the source (`configSetCmd`'s helpers).  The key validation and type coercion
delegate to the `internal/config` package, which is not in the sources; it is
modelled from the spec (§9): an explicit schema mapping each valid key to a
leaf field with a type tag, so valid keys are leaf paths — no valid key is a
proper dot-path extension of another. -/

/-- A raw TOML value as decoded into `map[string]interface{}`. -/
inductive TomlVal where
  | str (s : String)
  | int (n : Int)
  | bool (b : Bool)
  | strList (xs : List String)
  | table (m : List (String × TomlVal))

/-- Association-list lookup on a raw TOML table (Go map read). -/
def lookupEntry (m : List (String × TomlVal)) (k : String) : Option TomlVal :=
  (m.find? (fun e => e.1 == k)).map (fun e => e.2)

/-- Association-list write on a raw TOML table (Go map write): replace the
existing entry in place, or append a new one. -/
def setEntry (m : List (String × TomlVal)) (k : String) (v : TomlVal) :
    List (String × TomlVal) :=
  if (m.find? (fun e => e.1 == k)).isSome then
    m.map (fun e => if e.1 == k then (k, v) else e)
  else m ++ [(k, v)]

/-- `setRawMapKey` on an already-split key path: navigate/create nested
tables for every part but the last, overwriting a non-table intermediate
value with a fresh table, then set the final part. -/
def setParts (v : TomlVal) : List (String × TomlVal) → List String →
    List (String × TomlVal)
  | m, [] => m
  | m, [p] => setEntry m p v
  | m, p :: q :: rest =>
    let sub : List (String × TomlVal) :=
      match lookupEntry m p with
      | some (.table t) => t
      | _ => []
    setEntry m p (.table (setParts v sub (q :: rest)))

/-- `setRawMapKey`: sets a value in a nested map using dot-separated keys. -/
def setRawMapKey (m : List (String × TomlVal)) (key : String) (v : TomlVal) :
    List (String × TomlVal) :=
  setParts v m (key.splitOn ".")

/-- Dot-path read of a nested raw TOML map (the test helper
`getNestedValue`). -/
def getParts : List (String × TomlVal) → List String → Option TomlVal
  | _, [] => none
  | m, [p] => lookupEntry m p
  | m, p :: q :: rest =>
    match lookupEntry m p with
    | some (.table t) => getParts t (q :: rest)
    | _ => none

/-- `pathStarts p q` : `p` is an initial segment of the dot-path `q`. -/
def pathStarts : List String → List String → Bool
  | [], _ => true
  | _ :: _, [] => false
  | a :: as, b :: bs => a == b && pathStarts as bs

/-- Modelled from the spec (§9): one schema entry — a valid config key as a
dot path together with its value coercion (`coerceValue` driven by the typed
struct; `none` models a `SetConfigValue` validation failure). -/
structure SchemaEntry where
  path : List String
  coerce : String → Option TomlVal

/-- Modelled from the spec (§9): schema well-formedness.  Valid keys address
leaf fields of the config struct, so every path is nonempty and no valid
path is an initial segment of a different valid path. -/
def SchemaWF (schema : List SchemaEntry) : Prop :=
  (∀ e ∈ schema, e.path ≠ []) ∧
  ∀ e1 ∈ schema, ∀ e2 ∈ schema,
    e1.path ≠ e2.path → pathStarts e1.path e2.path = false

/-- `setConfigKey` on the decoded file state: validate + coerce the value
through the schema (the `config.SetConfigValue` / `coerceValue` pair), then
`setRawMapKey` into the raw map (a missing file starts from an empty map)
and atomically rewrite the file. -/
def setConfigKey (schema : List SchemaEntry) (file : Option (List (String × TomlVal)))
    (keyPath : List String) (value : String) :
    Except String (List (String × TomlVal)) :=
  match schema.find? (fun e => e.path == keyPath) with
  | none => .error "unknown config key"
  | some e =>
    match e.coerce value with
    | none => .error "invalid value"
    | some v => .ok (setParts v (file.getD []) keyPath)

/-- A sequence of `setConfigKey` calls, stopping at the first failure. -/
def runSets (schema : List SchemaEntry) :
    Option (List (String × TomlVal)) → List (List String × String) →
    Except String (List (String × TomlVal))
  | file, [] => .ok (file.getD [])
  | file, (k, v) :: rest =>
    match setConfigKey schema file k v with
    | .error e => .error e
    | .ok m => runSets schema (some m) rest

/-! ## Derived definitions used by the theorems -/

/-- A sequence of claim calls, one per worker in the list.  `Claim` is a
single atomic read-modify-write against the Store (spec §4.1), so any
concurrent execution of M claimers is equivalent to some such sequence. -/
def runClaims (s : Store) : List String → Store × List (Option ReviewJob)
  | [] => (s, [])
  | w :: ws =>
    let step := claimJob s w
    let rest := runClaims step.1 ws
    (rest.1, step.2 :: rest.2)

/-- The ids of the jobs actually returned by a sequence of claim calls. -/
def claimedIDs (res : List (Option ReviewJob)) : List Nat :=
  res.filterMap (fun o => o.map (fun j => j.id))

/-- The purely local part of the single-target `wait` path: flag/argument
resolution (lines 70–102 of `wait.go`) plus git-ref validation (lines
104–113), consulting only the local git oracles (`repoRoot`, `resolveSHA`),
never the daemon.  `none` means local validation failed; `some (ref, jobID)`
is the validated target (sentinels `""` / `0` as in the source). -/
def localTarget (env : WaitEnv) (shaFlag : String) (force : Bool)
    (args : List String) : Option (String × Int) :=
  let t1 : Option (String × Int) :=
    if shaFlag ≠ "" then some (shaFlag, 0)
    else
      match args with
      | arg :: _ =>
        if force then
          match parseInt64 arg with
          | some id => if id > 0 then some ("", id) else none
          | none => none
        else
          let refOk : Bool :=
            match env.repoRoot with
            | some root => (env.resolveSHA root arg).isSome
            | none => false
          if refOk then some (arg, 0)
          else
            match parseInt64 arg with
            | some id => if id > 0 then some ("", id) else none
            | none => none
      | [] => some ("HEAD", 0)
  match t1 with
  | none => none
  | some (ref, id) =>
    if ref ≠ "" then
      match env.resolveSHA (env.repoRoot.getD "") ref with
      | some _ => some (ref, id)
      | none => none
    else some (ref, id)

/-! ## Concrete sample data for the witnesses -/

def sampleJob : ReviewJob :=
  { id := 1, gitRef := "abc123", agent := "codex", status := .queued,
    seq := 0, startedAt := none, finishedAt := none, claimedBy := none }

def sampleJob2 : ReviewJob :=
  { id := 2, gitRef := "def456", agent := "codex", status := .queued,
    seq := 1, startedAt := none, finishedAt := none, claimedBy := none }

def sampleStore : Store :=
  { jobs := [sampleJob, sampleJob2], reviews := [], comments := [],
    nextID := 3, clock := 2 }

def sampleRunningJob : ReviewJob :=
  { sampleJob with status := .running, startedAt := some 2, claimedBy := some "w1" }

def sampleRunningStore : Store :=
  { jobs := [sampleRunningJob], reviews := [], comments := [],
    nextID := 2, clock := 3 }

def sampleDoneJob : ReviewJob :=
  { sampleJob with
    status := .done, startedAt := some 2, finishedAt := some 3,
    claimedBy := some "w1" }

def sampleDoneStore : Store :=
  { jobs := [sampleDoneJob], reviews := [], comments := [],
    nextID := 2, clock := 4 }

def sampleEmptyStore : Store :=
  { jobs := [], reviews := [], comments := [], nextID := 1, clock := 0 }

def sampleReview1 : Review :=
  { jobID := 1, agent := "codex", prompt := "p", output := "output1",
    verdictBool := some 1 }

def sampleMixedStore : Store :=
  { jobs := [sampleDoneJob, sampleJob2], reviews := [sampleReview1],
    comments := [], nextID := 3, clock := 5 }

def sampleLegacyReview : Review :=
  { jobID := 1, agent := "codex", prompt := "prompt",
    output := "No issues found.", verdictBool := none }

def sampleEnv : WaitEnv :=
  { repoRoot := some "/repo",
    mainRoot := some "/repo",
    resolveSHA := fun root r =>
      if root == "/repo" && (r == "HEAD" || r == "abc123" || r == "123456")
      then some ("sha-" ++ r) else none,
    daemonUp := true,
    findJobForCommit := fun _ sha =>
      if sha == "sha-abc123" then some 7 else none,
    waitForJob := fun id => if id == 7 then .pass else .failVerdict }

def sampleSchema : List SchemaEntry :=
  [ { path := ["default_agent"], coerce := fun v => some (.str v) },
    { path := ["max_workers"], coerce := fun v => (parseInt64 v).map .int },
    { path := ["sync", "enabled"], coerce := fun v =>
        if v == "true" then some (.bool true)
        else if v == "false" then some (.bool false) else none } ]

def sampleCalls : List (List String × String) :=
  [(["default_agent"], "gemini"), (["max_workers"], "8"),
   (["sync", "enabled"], "true")]

def sampleFinal : List (String × TomlVal) :=
  match runSets sampleSchema none sampleCalls with
  | .ok m => m
  | .error _ => []

/-- The exit-code discipline of one wait-command result: exit 0 (`ok`) only
when every awaited job passed and no "no job found" was reported; any
non-pass outcome forces exit code 1; and a "no job found" is the normal
`exit1` outcome (an `exitError`, not a plain error). -/
def GoodResult (res : CmdResult) : Prop :=
  (res.out = .ok → (∀ p ∈ res.waited, p.2 = .pass) ∧ res.noJob = none) ∧
  ((∃ p ∈ res.waited, p.2 ≠ .pass) → exitCode res.out = 1) ∧
  (∀ r, res.noJob = some r → res.out = .exit1)

/-! ## Shared helper lemmas -/

/-- Updating the job with a given id through an id-preserving function
commutes with looking that id up. -/
theorem find?_map_update (l : List ReviewJob) (id : Nat) (f : ReviewJob → ReviewJob)
    (hf : ∀ x, (f x).id = x.id) (j : ReviewJob)
    (h : l.find? (fun x => x.id == id) = some j) :
    (l.map (fun j2 => if j2.id == id then f j2 else j2)).find? (fun x => x.id == id)
      = some (f j) := by
  induction l with
  | nil => simp at h
  | cons a rest ih =>
    by_cases ha : a.id = id
    · have hpa : (a.id == id) = true := by simp [ha]
      rw [@List.find?_cons_of_pos _ (fun x => x.id == id) a rest hpa] at h
      have haj : a = j := by injection h
      subst haj
      simp only [List.map_cons, hpa, if_true]
      exact @List.find?_cons_of_pos _ (fun x => x.id == id) (f a)
        (rest.map (fun j2 => if j2.id == id then f j2 else j2)) (by simp [hf a, ha])
    · have hpa : ¬((a.id == id) = true) := by simp [ha]
      rw [@List.find?_cons_of_neg _ (fun x => x.id == id) a rest hpa] at h
      simp only [List.map_cons, if_neg hpa]
      rw [@List.find?_cons_of_neg _ (fun x => x.id == id) a
        (rest.map (fun j2 => if j2.id == id then f j2 else j2)) hpa]
      exact ih h

/-! ## C7 — comment availability -/

/-- C7: for every job status in {queued, running, done, failed, canceled},
`AddCommentToJob` succeeds, appending a retrievable comment at the end of the
job's comments (insertion order); for a job id that does not exist it fails
with a not-found condition. -/
theorem addCommentToJob_spec :
    (∀ (s : Store) (st : JobStatus),
      st ∈ [JobStatus.queued, JobStatus.running, JobStatus.done,
            JobStatus.failed, JobStatus.canceled] →
      ∀ j ∈ s.jobs, j.status = st → ∀ (responder text : String),
        addCommentToJob s j.id responder text =
          .ok ({ s with comments := s.comments ++ [⟨j.id, responder, text⟩] },
               ⟨j.id, responder, text⟩) ∧
        getCommentsForJob
            { s with comments := s.comments ++ [⟨j.id, responder, text⟩] } j.id
          = getCommentsForJob s j.id ++ [⟨j.id, responder, text⟩]) ∧
    (∀ (s : Store) (id : Nat) (responder text : String),
      findJob s id = none →
      addCommentToJob s id responder text = Except.error .notFound) := by
  constructor
  · intro s st _ j hj _ responder text
    have hsome : (findJob s j.id).isSome := by
      rw [findJob, List.find?_isSome]
      exact ⟨j, hj, by simp⟩
    obtain ⟨x, hx⟩ := Option.isSome_iff_exists.mp hsome
    refine ⟨by simp [addCommentToJob, hx], ?_⟩
    simp [getCommentsForJob, List.filter_append]
  · intro s id responder text h
    simp [addCommentToJob, h]

/-- C7 witness: a concrete queued job accepts a comment; a missing id fails. -/
theorem addCommentToJob_spec_witness :
    (addCommentToJob sampleStore 1 "alice" "first comment" =
        .ok ({ sampleStore with
                 comments := sampleStore.comments ++ [⟨1, "alice", "first comment"⟩] },
             ⟨1, "alice", "first comment"⟩) ∧
      getCommentsForJob
          { sampleStore with
              comments := sampleStore.comments ++ [⟨1, "alice", "first comment"⟩] } 1
        = getCommentsForJob sampleStore 1 ++ [⟨1, "alice", "first comment"⟩]) ∧
    addCommentToJob sampleStore 99999 "bob" "nope" = Except.error .notFound := by
  constructor
  · exact addCommentToJob_spec.1 sampleStore .queued (by decide) sampleJob
      (by simp [sampleStore]) (by decide) "alice" "first comment"
  · exact addCommentToJob_spec.2 sampleStore 99999 "bob" "nope" (by decide)

/-! ## C2 — cancel endpoint -/

/-- C2: `handleCancelJob` returns 405 on a non-POST method, 400 on a missing
`job_id`, 200 with the job transitioned to `canceled` when the job is
`queued` or `running`, and 404 (with the store untouched, never a silent
success) when the job is absent or in any other state. -/
theorem handleCancelJob_spec :
    (∀ (s : Store) (method : String) (body : Option Nat),
       method ≠ "POST" → handleCancelJob s method body = (405, s)) ∧
    (∀ s : Store, handleCancelJob s "POST" none = (400, s)) ∧
    (∀ (s : Store) (id : Nat) (j : ReviewJob),
       findJob s id = some j → (j.status = .queued ∨ j.status = .running) →
       (handleCancelJob s "POST" (some id)).1 = 200 ∧
       findJob (handleCancelJob s "POST" (some id)).2 id
         = some { j with status := .canceled, finishedAt := some s.clock }) ∧
    (∀ (s : Store) (id : Nat),
       findJob s id = none → handleCancelJob s "POST" (some id) = (404, s)) ∧
    (∀ (s : Store) (id : Nat) (j : ReviewJob),
       findJob s id = some j → ¬(j.status = .queued ∨ j.status = .running) →
       handleCancelJob s "POST" (some id) = (404, s)) := by
  refine ⟨?_, ?_, ?_, ?_, ?_⟩
  · intro s method body h; simp [handleCancelJob, h]
  · intro s; simp [handleCancelJob]
  · intro s id j hj hst
    have hc : cancelJob s id = Except.ok { s with jobs := s.jobs.map (fun j2 => if j2.id == id then { j2 with status := .canceled, finishedAt := some s.clock } else j2), clock := s.clock + 1 } := by
      simp [cancelJob, hj, hst]
    refine ⟨by simp [handleCancelJob, hc], ?_⟩
    have hupd := find?_map_update s.jobs id
      (fun j2 => { j2 with status := .canceled, finishedAt := some s.clock })
      (fun _ => rfl) j hj
    simp only [handleCancelJob, hc, findJob]
    simpa using hupd
  · intro s id h
    have hc : cancelJob s id = .error .notFound := by rw [cancelJob, h]
    simp [handleCancelJob, hc]
  · intro s id j hj hst
    have hc : cancelJob s id = .error .notFound := by simp [cancelJob, hj, hst]
    simp [handleCancelJob, hc]

/-- C2 witness: canceling the queued sample job succeeds with 200 and flips
it to canceled; a GET is 405, a missing id is 400, a missing job and an
already-canceled-equivalent (running-finished) job are 404. -/
theorem handleCancelJob_spec_witness :
    handleCancelJob sampleStore "GET" (some 1) = (405, sampleStore) ∧
    handleCancelJob sampleStore "POST" none = (400, sampleStore) ∧
    ((handleCancelJob sampleStore "POST" (some 1)).1 = 200 ∧
      findJob (handleCancelJob sampleStore "POST" (some 1)).2 1
        = some { sampleJob with status := .canceled, finishedAt := some sampleStore.clock }) ∧
    handleCancelJob sampleStore "POST" (some 99999) = (404, sampleStore) ∧
    handleCancelJob sampleDoneStore "POST" (some 1) = (404, sampleDoneStore) := by
  refine ⟨?_, ?_, ?_, ?_, ?_⟩
  · exact handleCancelJob_spec.1 sampleStore "GET" (some 1) (by decide)
  · exact handleCancelJob_spec.2.1 sampleStore
  · exact handleCancelJob_spec.2.2.1 sampleStore 1 sampleJob (by decide) (by decide)
  · exact handleCancelJob_spec.2.2.2.1 sampleStore 99999 (by decide)
  · exact handleCancelJob_spec.2.2.2.2 sampleDoneStore 1 sampleDoneJob
      (by decide) (by decide)

/-! ## C3 — verdict derivation -/

/-- C3: `CompleteJob` derives the verdict from the raw output text: output
containing `## Verdict: PASS` (case-insensitive) stores `VerdictBool = 1`;
output with a flagged finding and no explicit verdict marker stores
`VerdictBool = 0`; the stored review's effective verdict is `"P"`/`"F"`
accordingly; and a legacy row whose `VerdictBool` is NULL recomputes the same
verdict from the stored output text on every read instead of treating it as
fail. -/
theorem completeJob_verdict_derivation :
    (∀ t : String, hasSubL (lowerL t.data) "## verdict: pass".data = true →
       parseVerdict t = true) ∧
    (∀ t : String, hasSubL (lowerL t.data) "## verdict: pass".data = false →
       hasSubL (lowerL t.data) "## verdict: fail".data = false →
       hasFlaggedFinding (lowerL t.data) = true →
       parseVerdict t = false) ∧
    (∀ (s : Store) (id : Nat) (j : ReviewJob) (agent prompt output : String),
       findJob s id = some j → j.status = .running → findReview s id = none →
       ∃ s2, completeJob s id agent prompt output = .ok s2 ∧
         findReview s2 id = some { jobID := id, agent := agent, prompt := prompt, output := output, verdictBool := some (if parseVerdict output then 1 else 0) } ∧
         getReviewByJobID s2 id = .ok ({ jobID := id, agent := agent, prompt := prompt, output := output, verdictBool := some (if parseVerdict output then 1 else 0) }, if parseVerdict output then "P" else "F") ∧
         findJob s2 id = some { j with status := .done, finishedAt := some s.clock }) ∧
    (∀ r : Review, r.verdictBool = none →
       effectiveVerdict r = (if parseVerdict r.output then "P" else "F") ∧
       effectiveVerdict r = effectiveVerdict { r with verdictBool := some (if parseVerdict r.output then 1 else 0) }) := by
  refine ⟨?_, ?_, ?_, ?_⟩
  · intro t h; simp [parseVerdict, h]
  · intro t h1 h2 h3; simp [parseVerdict, h1, h2, h3]
  · intro s id j agent prompt output hj hst hnor
    have hc : completeJob s id agent prompt output = Except.ok { s with jobs := s.jobs.map (fun j2 => if j2.id == id then { j2 with status := .done, finishedAt := some s.clock } else j2), reviews := s.reviews ++ [{ jobID := id, agent := agent, prompt := prompt, output := output, verdictBool := some (if parseVerdict output then 1 else 0) }], clock := s.clock + 1 } := by
      simp [completeJob, hj, hst]
    refine ⟨_, hc, ?_, ?_, ?_⟩
    · show findReview _ id = _
      rw [findReview] at hnor ⊢
      simp only [List.find?_append, hnor, Option.none_or]
      simp [List.find?]
    · rw [getReviewByJobID]
      rw [show findReview { s with jobs := s.jobs.map (fun j2 => if j2.id == id then { j2 with status := .done, finishedAt := some s.clock } else j2), reviews := s.reviews ++ [{ jobID := id, agent := agent, prompt := prompt, output := output, verdictBool := some (if parseVerdict output then 1 else 0) }], clock := s.clock + 1 } id = some { jobID := id, agent := agent, prompt := prompt, output := output, verdictBool := some (if parseVerdict output then 1 else 0) } from by
        rw [findReview] at hnor ⊢
        simp only [List.find?_append, hnor, Option.none_or]
        simp [List.find?]]
      cases hpv : parseVerdict output <;> simp [effectiveVerdict, hpv]
    · have hupd := find?_map_update s.jobs id
        (fun j2 => { j2 with status := .done, finishedAt := some s.clock })
        (fun _ => rfl) j hj
      simp only [findJob]
      simpa using hupd
  · intro r h
    refine ⟨by simp [effectiveVerdict, h], ?_⟩
    cases hpv : parseVerdict r.output <;> simp [effectiveVerdict, h, hpv]

/-- C3 witness: completing the concrete running job with a `## Verdict: PASS`
output stores `VerdictBool = 1` / verdict `"P"`; the flagged-finding text
parses to fail; and the legacy NULL-verdict review recomputes pass from its
stored text. -/
theorem completeJob_verdict_derivation_witness :
    parseVerdict "Test review output\n\n## Verdict: PASS" = true ∧
    parseVerdict "- High — Critical bug found" = false ∧
    (∃ s2, completeJob sampleRunningStore 1 "codex" "prompt" "No issues found.\n\n## Verdict: PASS" = .ok s2 ∧
      findReview s2 1 = some { jobID := 1, agent := "codex", prompt := "prompt", output := "No issues found.\n\n## Verdict: PASS", verdictBool := some (if parseVerdict "No issues found.\n\n## Verdict: PASS" then 1 else 0) } ∧
      getReviewByJobID s2 1 = .ok ({ jobID := 1, agent := "codex", prompt := "prompt", output := "No issues found.\n\n## Verdict: PASS", verdictBool := some (if parseVerdict "No issues found.\n\n## Verdict: PASS" then 1 else 0) }, if parseVerdict "No issues found.\n\n## Verdict: PASS" then "P" else "F") ∧
      findJob s2 1 = some { sampleRunningJob with status := .done, finishedAt := some sampleRunningStore.clock }) ∧
    (effectiveVerdict sampleLegacyReview = (if parseVerdict sampleLegacyReview.output then "P" else "F") ∧
     effectiveVerdict sampleLegacyReview = effectiveVerdict { sampleLegacyReview with verdictBool := some (if parseVerdict sampleLegacyReview.output then 1 else 0) }) := by
  refine ⟨?_, ?_, ?_, ?_⟩
  · exact completeJob_verdict_derivation.1 "Test review output\n\n## Verdict: PASS" (by decide)
  · exact completeJob_verdict_derivation.2.1 "- High — Critical bug found" (by decide) (by decide) (by decide)
  · exact completeJob_verdict_derivation.2.2.1 sampleRunningStore 1 sampleRunningJob
      "codex" "prompt" "No issues found.\n\n## Verdict: PASS" (by decide) (by decide) (by decide)
  · exact completeJob_verdict_derivation.2.2.2 sampleLegacyReview rfl

/-! ## C6 — batch fetch -/

/-- C6: `GetJobsWithReviewsByIDs`, given any mix of jobs-with-review,
jobs-without-review and nonexistent ids, returns exactly the existing jobs
(in batch order), each paired with its review or `none` and its populated
verdict; nonexistent ids are simply omitted; an empty id list returns an
empty, non-error result. -/
theorem getJobsWithReviewsByIDs_spec :
    (∀ s : Store, getJobsWithReviewsByIDs s [] = []) ∧
    (∀ (s : Store) (ids : List Nat),
       (getJobsWithReviewsByIDs s ids).map (fun p => p.1)
         = ids.filter (fun id => (findJob s id).isSome)) ∧
    (∀ (s : Store) (ids : List Nat), ∀ p ∈ getJobsWithReviewsByIDs s ids,
       findJob s p.1 = some p.2.1 ∧ p.2.2.1 = findReview s p.1 ∧
       p.2.2.2 = (findReview s p.1).map effectiveVerdict) ∧
    (∀ (s : Store) (ids : List Nat) (id : Nat), id ∈ ids →
       ∀ j, findJob s id = some j →
       (id, j, findReview s id, (findReview s id).map effectiveVerdict)
         ∈ getJobsWithReviewsByIDs s ids) := by
  refine ⟨?_, ?_, ?_, ?_⟩
  · intro s; rfl
  · intro s ids
    induction ids with
    | nil => rfl
    | cons id rest ih =>
      simp only [getJobsWithReviewsByIDs, List.filterMap_cons] at ih ⊢
      cases h : findJob s id with
      | none => simp [h, ih]
      | some j => simp [h, ih]
  · intro s ids
    induction ids with
    | nil => intro p hp; simp [getJobsWithReviewsByIDs] at hp
    | cons id rest ih =>
      intro p hp
      simp only [getJobsWithReviewsByIDs, List.filterMap_cons] at hp
      cases h : findJob s id with
      | none =>
        rw [h] at hp
        exact ih p hp
      | some j =>
        rw [h] at hp
        rcases List.mem_cons.mp hp with heq | hmem
        · subst heq; exact ⟨h, rfl, rfl⟩
        · exact ih p hmem
  · intro s ids
    induction ids with
    | nil => intro id h; simp at h
    | cons id0 rest ih =>
      intro id hmem j hj
      simp only [getJobsWithReviewsByIDs, List.filterMap_cons]
      rcases List.mem_cons.mp hmem with heq | hrest
      · subst heq
        rw [hj]
        exact List.mem_cons_self _ _
      · cases h0 : findJob s id0 with
        | none => exact ih id hrest j hj
        | some j0 => exact List.mem_cons_of_mem _ (ih id hrest j hj)

/-- C6 witness: the concrete mixed store (job 1 done with a review, job 2
queued without one, id 9999 absent). -/
theorem getJobsWithReviewsByIDs_spec_witness :
    getJobsWithReviewsByIDs sampleMixedStore [] = [] ∧
    (getJobsWithReviewsByIDs sampleMixedStore [1, 2, 9999]).map (fun p => p.1)
      = [1, 2, 9999].filter (fun id => (findJob sampleMixedStore id).isSome) ∧
    (findJob sampleMixedStore (1, sampleDoneJob, findReview sampleMixedStore 1, (findReview sampleMixedStore 1).map effectiveVerdict).1
        = some (1, sampleDoneJob, findReview sampleMixedStore 1, (findReview sampleMixedStore 1).map effectiveVerdict).2.1) ∧
    (1, sampleDoneJob, findReview sampleMixedStore 1,
        (findReview sampleMixedStore 1).map effectiveVerdict)
      ∈ getJobsWithReviewsByIDs sampleMixedStore [1, 2, 9999] ∧
    (2, sampleJob2, findReview sampleMixedStore 2,
        (findReview sampleMixedStore 2).map effectiveVerdict)
      ∈ getJobsWithReviewsByIDs sampleMixedStore [1, 2, 9999] := by
  refine ⟨?_, ?_, ?_, ?_, ?_⟩
  · exact getJobsWithReviewsByIDs_spec.1 sampleMixedStore
  · exact getJobsWithReviewsByIDs_spec.2.1 sampleMixedStore [1, 2, 9999]
  · exact (getJobsWithReviewsByIDs_spec.2.2.1 sampleMixedStore [1, 2, 9999]
      (1, sampleDoneJob, findReview sampleMixedStore 1,
        (findReview sampleMixedStore 1).map effectiveVerdict) (by decide)).1
  · exact getJobsWithReviewsByIDs_spec.2.2.2 sampleMixedStore [1, 2, 9999] 1
      (by decide) sampleDoneJob (by decide)
  · exact getJobsWithReviewsByIDs_spec.2.2.2 sampleMixedStore [1, 2, 9999] 2
      (by decide) sampleJob2 (by decide)

/-! ## Claim lemmas (shared by C1 and C5) -/

/-- A claim finds nothing exactly when no job is queued. -/
theorem claimFirst_none_iff (w : String) (c : Nat) (l : List ReviewJob) :
    claimFirst w c l = none ↔ l.filter isQueued = [] := by
  induction l with
  | nil => simp [claimFirst]
  | cons a rest ih =>
    by_cases ha : isQueued a = true
    · simp [claimFirst, ha, List.filter_cons]
    · rw [List.filter_cons, if_neg (by simp [ha])]
      rw [← ih]
      simp only [claimFirst, ha, Bool.false_eq_true, if_false]
      cases h : claimFirst w c rest with
      | none => simp
      | some val => simp

/-- A successful claim takes exactly the first queued job: the claimed job is
that job marked running, the remaining queued jobs are the tail, and job ids
are untouched. -/
theorem claimFirst_some (w : String) (c : Nat) (l : List ReviewJob) :
    ∀ (l2 : List ReviewJob) (j : ReviewJob), claimFirst w c l = some (l2, j) →
    ∃ j0, (l.filter isQueued).head? = some j0 ∧ j = markRunning w c j0 ∧
      l2.filter isQueued = (l.filter isQueued).tail ∧
      l2.map (fun x => x.id) = l.map (fun x => x.id) ∧
      j0 ∈ l ∧ isQueued j0 = true := by
  induction l with
  | nil => intro l2 j h; simp [claimFirst] at h
  | cons a rest ih =>
    intro l2 j h
    by_cases ha : isQueued a = true
    · simp only [claimFirst, ha, if_true] at h
      injection h with hpair
      injection hpair with hl2 hj
      subst hl2; subst hj
      refine ⟨a, ?_, rfl, ?_, rfl, List.mem_cons_self a rest, ha⟩
      · rw [List.filter_cons, if_pos (by simp [ha])]; rfl
      · rw [List.filter_cons, List.filter_cons]
        have hmr : isQueued (markRunning w c a) = false := rfl
        simp [hmr, ha]
    · cases hr : claimFirst w c rest with
      | none =>
        simp only [claimFirst, ha, Bool.false_eq_true, if_false, hr] at h
        exact Option.noConfusion h
      | some val =>
        obtain ⟨rest2, cj⟩ := val
        simp only [claimFirst, ha, Bool.false_eq_true, if_false, hr] at h
        injection h with hpair
        injection hpair with hl2 hj
        subst hl2; subst hj
        obtain ⟨j0, hh1, hh2, hh3, hh4, hh5, hh6⟩ := ih rest2 cj hr
        refine ⟨j0, ?_, hh2, ?_, ?_, List.mem_cons_of_mem a hh5, hh6⟩
        · rw [List.filter_cons, if_neg (by simp [ha])]; exact hh1
        · rw [List.filter_cons, List.filter_cons, if_neg (by simp [ha]),
            if_neg (by simp [ha])]
          exact hh3
        · simp only [List.map_cons]; rw [hh4]

/-! ## C5 — FIFO claim -/

/-- C5: `Claim` atomically selects the oldest queued job (FIFO by enqueue
order) and transitions it to `running`, stamping `StartedAt` and `ClaimedBy`;
when no job is queued it returns a "no job" result (`none`, store unchanged),
not an error. -/
theorem claimJob_fifo_spec :
    (∀ (s : Store) (w : String), s.jobs.filter isQueued = [] →
       claimJob s w = (s, none)) ∧
    (∀ (s : Store) (w : String), s.jobs.filter isQueued ≠ [] →
       ∃ s2 j, claimJob s w = (s2, some j)) ∧
    (∀ (s : Store) (w : String) (s2 : Store) (j : ReviewJob),
       s.jobs.Pairwise (fun a b => a.seq < b.seq) →
       claimJob s w = (s2, some j) →
       ∃ j0 ∈ s.jobs, j0.status = .queued ∧ j = markRunning w s.clock j0 ∧
         j.status = .running ∧ j.startedAt = some s.clock ∧
         j.claimedBy = some w ∧
         ∀ j' ∈ s.jobs, j'.status = .queued → j0.seq ≤ j'.seq) := by
  refine ⟨?_, ?_, ?_⟩
  · intro s w h
    have hc : claimFirst w s.clock s.jobs = none := (claimFirst_none_iff _ _ _).mpr h
    simp [claimJob, hc]
  · intro s w h
    cases hc : claimFirst w s.clock s.jobs with
    | none => exact absurd ((claimFirst_none_iff _ _ _).mp hc) h
    | some val =>
      obtain ⟨l2, j⟩ := val
      exact ⟨{ s with jobs := l2, clock := s.clock + 1 }, j, by simp [claimJob, hc]⟩
  · intro s w s2 j hsort h
    cases hc : claimFirst w s.clock s.jobs with
    | none => simp [claimJob, hc] at h
    | some val =>
      obtain ⟨l2, j1⟩ := val
      have hj1 : j1 = j := by
        simp only [claimJob, hc] at h
        exact Option.some.inj (congrArg Prod.snd h)
      rw [hj1] at hc
      obtain ⟨j0, hhead, hjeq, _, _, hmem, hq⟩ :=
        claimFirst_some w s.clock s.jobs l2 j hc
      have hq0 : j0.status = .queued := by simpa [isQueued] using hq
      refine ⟨j0, hmem, hq0, hjeq, by rw [hjeq]; rfl, by rw [hjeq]; rfl,
        by rw [hjeq]; rfl, ?_⟩
      intro j' hj' hq'
      have hmem' : j' ∈ s.jobs.filter isQueued :=
        List.mem_filter.mpr ⟨hj', by simp [isQueued, hq']⟩
      cases hfil : s.jobs.filter isQueued with
      | nil => rw [hfil] at hmem'; simp at hmem'
      | cons q t =>
        have hq0q : q = j0 := by
          rw [hfil] at hhead
          simpa using hhead
        subst hq0q
        have hpw : (s.jobs.filter isQueued).Pairwise (fun a b => a.seq < b.seq) :=
          List.Pairwise.sublist (List.filter_sublist _) hsort
        rw [hfil] at hpw hmem'
        rcases List.mem_cons.mp hmem' with heq | hmemt
        · subst heq; exact Nat.le_refl _
        · exact Nat.le_of_lt ((List.pairwise_cons.mp hpw).1 j' hmemt)

/-- C5 witness: claiming from the two-queued-job sample store returns the
older job 1, marked running with `StartedAt`/`ClaimedBy` stamped. -/
theorem claimJob_fifo_spec_witness :
    claimJob sampleEmptyStore "w1" = (sampleEmptyStore, none) ∧
    (∃ s2 j, claimJob sampleStore "w1" = (s2, some j)) ∧
    (∃ j0 ∈ sampleStore.jobs, j0.status = .queued ∧
       markRunning "w1" sampleStore.clock sampleJob
         = markRunning "w1" sampleStore.clock j0 ∧
       (markRunning "w1" sampleStore.clock sampleJob).status = .running ∧
       (markRunning "w1" sampleStore.clock sampleJob).startedAt
         = some sampleStore.clock ∧
       (markRunning "w1" sampleStore.clock sampleJob).claimedBy = some "w1" ∧
       ∀ j' ∈ sampleStore.jobs, j'.status = .queued → j0.seq ≤ j'.seq) := by
  refine ⟨?_, ?_, ?_⟩
  · exact claimJob_fifo_spec.1 sampleEmptyStore "w1" rfl
  · exact claimJob_fifo_spec.2.1 sampleStore "w1" (by decide)
  · exact claimJob_fifo_spec.2.2 sampleStore "w1"
      (claimJob sampleStore "w1").1 (markRunning "w1" sampleStore.clock sampleJob)
      (by simp [sampleStore, List.pairwise_cons]; decide) rfl

/-! ## C1 — claim exclusivity -/

/-- A sequence of claim calls returns exactly the ids of the first
`min(N, M)` queued jobs, in FIFO order. -/
theorem runClaims_ids (ws : List String) : ∀ s : Store,
    claimedIDs (runClaims s ws).2
      = ((s.jobs.filter isQueued).take ws.length).map (fun j => j.id) := by
  induction ws with
  | nil => intro s; simp [runClaims, claimedIDs]
  | cons w ws ih =>
    intro s
    cases hc : claimFirst w s.clock s.jobs with
    | none =>
      have hj : claimJob s w = (s, none) := by simp [claimJob, hc]
      have hf := (claimFirst_none_iff w s.clock s.jobs).mp hc
      simp only [runClaims, hj, claimedIDs, List.filterMap_cons, Option.map_none']
      have := ih s
      rw [claimedIDs] at this
      rw [this, hf]
      simp
    | some val =>
      obtain ⟨l2, j⟩ := val
      have hj : claimJob s w = ({ s with jobs := l2, clock := s.clock + 1 }, some j) := by
        simp [claimJob, hc]
      obtain ⟨j0, hhead, hjeq, htail, _, _, _⟩ :=
        claimFirst_some w s.clock s.jobs l2 j hc
      cases hfil : s.jobs.filter isQueued with
      | nil => rw [hfil] at hhead; simp at hhead
      | cons q t =>
        rw [hfil] at hhead htail
        have hq0 : q = j0 := by simpa using hhead
        subst hq0
        simp only [runClaims, hj, claimedIDs, List.filterMap_cons, Option.map_some']
        have := ih { s with jobs := l2, clock := s.clock + 1 }
        rw [claimedIDs] at this
        rw [this]
        simp only [htail, List.take_succ_cons, List.map_cons, List.tail_cons]
        rw [hjeq]
        rfl

/-- C1: for any store and any sequence of claim calls (one per worker; the
spec makes each `Claim` a single atomic store transaction, so any concurrent
execution of M claimers is equivalent to such a sequence), the returned job
ids are exactly the first `min(N, M)` queued ids: no job is ever returned to
two callers, and the number of successful claims is `min(N, M)`. -/
theorem claim_exclusivity (s : Store) (ws : List String)
    (hids : (s.jobs.map (fun j => j.id)).Nodup) :
    claimedIDs (runClaims s ws).2
        = ((s.jobs.filter isQueued).take ws.length).map (fun j => j.id) ∧
    (claimedIDs (runClaims s ws).2).Nodup ∧
    (claimedIDs (runClaims s ws).2).length
        = min (s.jobs.filter isQueued).length ws.length := by
  have h := runClaims_ids ws s
  refine ⟨h, ?_, ?_⟩
  · rw [h]
    have hsub : List.Sublist ((s.jobs.filter isQueued).take ws.length) s.jobs :=
      (List.take_sublist _ _).trans (List.filter_sublist _)
    exact List.Nodup.sublist (List.Sublist.map _ hsub) hids
  · rw [h, List.length_map, List.length_take]
    exact Nat.min_comm _ _

/-- C1 witness: three claim calls on the two-queued-job store claim exactly
jobs 1 and 2 (distinct, `min(2, 3) = 2`). -/
theorem claim_exclusivity_witness :
    claimedIDs (runClaims sampleStore ["w1", "w2", "w3"]).2
        = ((sampleStore.jobs.filter isQueued).take 3).map (fun j => j.id) ∧
    (claimedIDs (runClaims sampleStore ["w1", "w2", "w3"]).2).Nodup ∧
    (claimedIDs (runClaims sampleStore ["w1", "w2", "w3"]).2).length
        = min (sampleStore.jobs.filter isQueued).length 3 :=
  claim_exclusivity sampleStore ["w1", "w2", "w3"] (by decide)

/-! ## C10 — config set frame property -/

theorem lookup_map_set_ne (m : List (String × TomlVal)) (k : String) (v : TomlVal)
    (q : String) (hqk : q ≠ k) :
    lookupEntry (m.map (fun e => if e.1 == k then (k, v) else e)) q
      = lookupEntry m q := by
  induction m with
  | nil => rfl
  | cons e rest ih =>
    by_cases he : e.1 = k
    · have hek : (e.1 == k) = true := by simp [he]
      simp only [List.map_cons, hek, if_true]
      rw [lookupEntry, lookupEntry,
        @List.find?_cons_of_neg _ (fun x => x.1 == q) (k, v) _ (by simp [Ne.symm hqk]),
        @List.find?_cons_of_neg _ (fun x => x.1 == q) e _ (by simp [he, Ne.symm hqk])]
      exact ih
    · have hek : (e.1 == k) = false := by simp [he]
      simp only [List.map_cons, hek, Bool.false_eq_true, if_false]
      by_cases heq : e.1 = q
      · rw [lookupEntry, lookupEntry,
          @List.find?_cons_of_pos _ (fun x => x.1 == q) e _ (by simp [heq]),
          @List.find?_cons_of_pos _ (fun x => x.1 == q) e _ (by simp [heq])]
      · rw [lookupEntry, lookupEntry,
          @List.find?_cons_of_neg _ (fun x => x.1 == q) e _ (by simp [heq]),
          @List.find?_cons_of_neg _ (fun x => x.1 == q) e _ (by simp [heq])]
        exact ih

theorem lookup_map_set_self (m : List (String × TomlVal)) (k : String) (v : TomlVal)
    (hp : lookupEntry m k ≠ none) :
    lookupEntry (m.map (fun e => if e.1 == k then (k, v) else e)) k = some v := by
  induction m with
  | nil => exact absurd rfl hp
  | cons e rest ih =>
    by_cases he : e.1 = k
    · have hek : (e.1 == k) = true := by simp [he]
      simp only [List.map_cons, hek, if_true]
      rw [lookupEntry,
        @List.find?_cons_of_pos _ (fun x => x.1 == k) (k, v) _ (by simp)]
      rfl
    · have hek : (e.1 == k) = false := by simp [he]
      have hp2 : lookupEntry rest k ≠ none := by
        intro hnone
        apply hp
        rw [lookupEntry,
          @List.find?_cons_of_neg _ (fun x => x.1 == k) e _ (by simp [he])]
        rw [lookupEntry] at hnone
        exact hnone
      simp only [List.map_cons, hek, Bool.false_eq_true, if_false]
      rw [lookupEntry,
        @List.find?_cons_of_neg _ (fun x => x.1 == k) e _ (by simp [he])]
      rw [lookupEntry] at ih
      exact ih hp2

/-- Writing key `k` into a raw table reads back as `v` at `k` and leaves every
other key's entry unchanged. -/
theorem lookupEntry_setEntry (m : List (String × TomlVal)) (k : String)
    (v : TomlVal) (q : String) :
    lookupEntry (setEntry m k v) q = if q = k then some v else lookupEntry m q := by
  rw [setEntry]
  by_cases hp : (m.find? (fun e => e.1 == k)).isSome
  · rw [if_pos hp]
    by_cases hqk : q = k
    · subst hqk
      rw [if_pos rfl]
      apply lookup_map_set_self
      rw [lookupEntry]
      intro hh
      rw [Option.map_eq_none'] at hh
      rw [hh] at hp
      simp at hp
    · rw [if_neg hqk]
      exact lookup_map_set_ne m k v q hqk
  · rw [if_neg hp]
    have hnone : m.find? (fun e => e.1 == k) = none :=
      Option.not_isSome_iff_eq_none.mp hp
    by_cases hqk : q = k
    · subst hqk
      rw [if_pos rfl, lookupEntry, List.find?_append, hnone, Option.none_or]
      simp [List.find?_cons_of_pos]
    · rw [if_neg hqk, lookupEntry, lookupEntry, List.find?_append]
      have hkq : (k == q) = false := by simp [Ne.symm hqk]
      have h1 : List.find? (fun e => e.1 == q) [(k, v)] = none := by
        rw [@List.find?_cons_of_neg _ (fun e => e.1 == q) (k, v) [] (by simp [hkq])]
        rfl
      rw [h1, Option.or_none]

theorem getParts_nil (q : List String) : getParts [] q = none := by
  cases q with
  | nil => rfl
  | cons a t => cases t <;> rfl

/-- Frame: writing path `p` leaves every path `q` that is not
prefix-comparable with `p` unchanged. -/
theorem getParts_setParts_ne (p : List String) :
    ∀ (q : List String) (m : List (String × TomlVal)) (v : TomlVal),
    pathStarts p q = false → pathStarts q p = false →
    getParts (setParts v m p) q = getParts m q := by
  induction p with
  | nil => intro q m v h1 _; simp [pathStarts] at h1
  | cons a pt ih =>
    intro q m v h1 h2
    cases pt with
    | nil =>
      cases q with
      | nil => rfl
      | cons b qt =>
        have hab : a ≠ b := by
          intro hab
          subst hab
          simp [pathStarts] at h1
        cases qt with
        | nil =>
          show lookupEntry (setEntry m a v) b = lookupEntry m b
          rw [lookupEntry_setEntry, if_neg (fun hba => hab hba.symm)]
        | cons c qt2 =>
          simp only [setParts, getParts]
          rw [lookupEntry_setEntry, if_neg (fun hba => hab hba.symm)]
    | cons a2 pt2 =>
      cases q with
      | nil => rfl
      | cons b qt =>
        by_cases hab : a = b
        · subst hab
          have h1' : pathStarts (a2 :: pt2) qt = false := by
            simpa [pathStarts] using h1
          cases qt with
          | nil => simp [pathStarts] at h2
          | cons c qt2 =>
            have h2' : pathStarts (c :: qt2) (a2 :: pt2) = false := by
              simpa [pathStarts] using h2
            simp only [setParts, getParts]
            rw [lookupEntry_setEntry, if_pos rfl]
            cases hsub : lookupEntry m a with
            | none =>
              simp only [hsub]
              rw [ih (c :: qt2) [] v h1' h2']
              exact getParts_nil _
            | some tv =>
              cases tv <;> simp only [hsub] <;>
                first
                  | exact ih (c :: qt2) _ v h1' h2'
                  | (rw [ih (c :: qt2) [] v h1' h2']; exact getParts_nil _)
        · simp only [setParts]
          cases qt with
          | nil =>
            show lookupEntry _ b = lookupEntry m b
            rw [lookupEntry_setEntry, if_neg (fun hba => hab hba.symm)]
          | cons c qt2 =>
            simp only [getParts]
            rw [lookupEntry_setEntry, if_neg (fun hba => hab hba.symm)]

/-- Writing path `p` reads back as the written value at `p`. -/
theorem getParts_setParts_self (p : List String) :
    ∀ (m : List (String × TomlVal)) (v : TomlVal), p ≠ [] →
    getParts (setParts v m p) p = some v := by
  induction p with
  | nil => intro m v h; exact absurd rfl h
  | cons a pt ih =>
    intro m v _
    cases pt with
    | nil =>
      show lookupEntry (setEntry m a v) a = some v
      rw [lookupEntry_setEntry, if_pos rfl]
    | cons a2 pt2 =>
      simp only [setParts, getParts]
      rw [lookupEntry_setEntry, if_pos rfl]
      exact ih _ v (by simp)

/-- A successful `setConfigKey` found a schema entry for the key, coerced the
value through it, and wrote the coerced value at the key's path. -/
theorem setConfigKey_ok_destruct (schema : List SchemaEntry)
    (file : Option (List (String × TomlVal))) (k : List String) (val : String)
    (m1 : List (String × TomlVal))
    (h : setConfigKey schema file k val = .ok m1) :
    ∃ e0 ∈ schema, e0.path = k ∧ ∃ v0, e0.coerce val = some v0 ∧
      m1 = setParts v0 (file.getD []) k := by
  cases hfind : schema.find? (fun e => e.path == k) with
  | none => simp only [setConfigKey, hfind] at h; exact absurd h (by simp)
  | some e0 =>
    simp only [setConfigKey, hfind] at h
    cases hco : e0.coerce val with
    | none => simp only [hco] at h; exact absurd h (by simp)
    | some v0 =>
      simp only [hco] at h
      refine ⟨e0, List.mem_of_find?_eq_some hfind, ?_, v0, hco, ?_⟩
      · have := List.find?_some hfind
        simpa using this
      · injection h with h'
        exact h'.symm

/-- A run of `setConfigKey` calls never touches a valid key that none of the
calls sets. -/
theorem runSets_frame (schema : List SchemaEntry) (hwf : SchemaWF schema) :
    ∀ (calls : List (List String × String))
      (file : Option (List (String × TomlVal))) (final : List (String × TomlVal)),
    runSets schema file calls = .ok final →
    ∀ p : List String, (∃ e ∈ schema, e.path = p) →
    (∀ c ∈ calls, c.1 ≠ p) →
    getParts final p = getParts (file.getD []) p := by
  intro calls
  induction calls with
  | nil =>
    intro file final h p _ _
    simp only [runSets] at h
    injection h with h'
    rw [h']
  | cons c0 rest ih =>
    intro file final h p hp hne
    simp only [runSets] at h
    cases hsk : setConfigKey schema file c0.1 c0.2 with
    | error e => rw [hsk] at h; exact absurd h (by simp)
    | ok m1 =>
      rw [hsk] at h
      obtain ⟨e0, he0, he0p, v0, _, hm1⟩ :=
        setConfigKey_ok_destruct schema file c0.1 c0.2 m1 hsk
      obtain ⟨ep, hepmem, heppath⟩ := hp
      have hne1 : c0.1 ≠ p := hne c0 (List.mem_cons_self _ _)
      have hdiff : e0.path ≠ ep.path := by rw [he0p, heppath]; exact hne1
      have hs1 : pathStarts e0.path ep.path = false := hwf.2 e0 he0 ep hepmem hdiff
      have hs2 : pathStarts ep.path e0.path = false :=
        hwf.2 ep hepmem e0 he0 (Ne.symm hdiff)
      rw [he0p, heppath] at hs1 hs2
      have hstep : getParts m1 p = getParts (file.getD []) p := by
        rw [hm1]
        exact getParts_setParts_ne c0.1 p (file.getD []) v0 hs1 hs2
      rw [← hstep]
      have hrec := ih (some m1) final h p ⟨ep, hepmem, heppath⟩
        (fun c2 hc2 => hne c2 (List.mem_cons_of_mem _ hc2))
      simpa using hrec

/-- C10: setting one configuration key through `setConfigKey` leaves every
other valid key of the target TOML file unchanged; after any sequence of
`setConfigKey` calls on distinct keys, each previously set key still holds
its previously set (coerced) value.  Well-formedness of the schema — valid
keys are leaf paths of the config struct, so none is a dot-path extension of
another — is the spec's §9 explicit-schema contract. -/
theorem setConfigKey_frame_spec (schema : List SchemaEntry) (hwf : SchemaWF schema) :
    (∀ (file : Option (List (String × TomlVal))) (k k' : List String)
       (val : String) (m1 : List (String × TomlVal)),
       setConfigKey schema file k val = .ok m1 →
       (∃ e ∈ schema, e.path = k') → k' ≠ k →
       getParts m1 k' = getParts (file.getD []) k') ∧
    (∀ (calls : List (List String × String))
       (file : Option (List (String × TomlVal))) (final : List (String × TomlVal)),
       runSets schema file calls = .ok final →
       (calls.map (fun c => c.1)).Nodup →
       ∀ c ∈ calls, ∃ e ∈ schema, e.path = c.1 ∧ ∃ v, e.coerce c.2 = some v ∧
         getParts final c.1 = some v) := by
  constructor
  · intro file k k' val m1 h hk' hne
    have hrun : runSets schema file [(k, val)] = .ok m1 := by
      simp [runSets, h]
    exact runSets_frame schema hwf [(k, val)] file m1 hrun k' hk'
      (fun c hc => by
        rcases List.mem_cons.mp hc with heq | hmem
        · subst heq; exact Ne.symm hne
        · simp at hmem)
  · intro calls
    induction calls with
    | nil => intro file final h hnod c hc; simp at hc
    | cons c0 rest ih =>
      intro file final h hnod c hc
      simp only [runSets] at h
      cases hsk : setConfigKey schema file c0.1 c0.2 with
      | error e => rw [hsk] at h; exact absurd h (by simp)
      | ok m1 =>
        rw [hsk] at h
        rw [List.map_cons] at hnod
        rcases List.mem_cons.mp hc with heq | hmem
        · subst heq
          obtain ⟨e0, he0, he0p, v0, hco, hm1⟩ :=
            setConfigKey_ok_destruct schema file c.1 c.2 m1 hsk
          refine ⟨e0, he0, he0p, v0, hco, ?_⟩
          have hkeys : c.1 ∉ rest.map (fun c2 => c2.1) :=
            (List.nodup_cons.mp hnod).1
          have hfr := runSets_frame schema hwf rest (some m1) final h c.1
            ⟨e0, he0, he0p⟩
            (fun c2 hc2 => by
              intro hceq
              exact hkeys (by rw [← hceq]; exact List.mem_map_of_mem _ hc2))
          rw [hfr]
          simp only [Option.getD]
          rw [hm1]
          apply getParts_setParts_self
          rw [← he0p]
          exact hwf.1 e0 he0
        · exact ih (some m1) final h (List.nodup_cons.mp hnod).2 c hmem

/-- C10 witness: `SchemaWF` holds for the concrete sample schema, and after
setting `default_agent`, `max_workers` and `sync.enabled` in sequence, the
earlier `max_workers` key still holds its coerced value. -/
theorem setConfigKey_frame_spec_witness :
    SchemaWF sampleSchema ∧
    (∃ e ∈ sampleSchema, e.path = ["max_workers"] ∧ ∃ v, e.coerce "8" = some v ∧
       getParts sampleFinal ["max_workers"] = some v) := by
  have hwf : SchemaWF sampleSchema := by
    constructor
    · intro e he
      simp only [sampleSchema, List.mem_cons, List.mem_singleton] at he
      rcases he with h | h | h | h
      · subst h; simp
      · subst h; simp
      · subst h; simp
      · simp at h
    · intro e1 h1 e2 h2 hne
      simp only [sampleSchema, List.mem_cons, List.mem_singleton] at h1 h2
      rcases h1 with h1 | h1 | h1 | h1 <;> rcases h2 with h2 | h2 | h2 | h2 <;>
        first
          | (subst h1; subst h2; first | (exact absurd rfl hne) | rfl)
          | simp_all
  refine ⟨hwf, ?_⟩
  exact (setConfigKey_frame_spec sampleSchema hwf).2 sampleCalls none sampleFinal
    rfl (by decide) (["max_workers"], "8") (by simp [sampleCalls])

/-! ## C4 — concurrent multi-wait aggregation -/

theorem any_map_general {α β : Type} (l : List α) (f : α → β) (p : β → Bool) :
    (l.map f).any p = l.any (fun x => p (f x)) := by
  induction l with
  | nil => rfl
  | cons a rest ih => simp [List.any_cons, ih]

theorem any_neg_eq_not_all {α : Type} (l : List α) (p : α → Bool) :
    l.any (fun x => !(p x)) = !l.all p := by
  induction l with
  | nil => rfl
  | cons a rest ih => simp [List.any_cons, List.all_cons, ih, Bool.not_and]

/-- Each schedule entry writes only its own slot: after running any schedule
whose entries are in range, slot `j` holds job `j`'s result exactly when `j`
was scheduled, and is untouched otherwise. -/
theorem runSched_slot (jobIDs : List Int) (wait : Int → WaitOutcome) :
    ∀ (sched : List Nat) (f : Nat → Option (Int × WaitOutcome)) (j : Nat),
    (∀ i ∈ sched, i < jobIDs.length) →
    runSched jobIDs wait sched f j
      = if j ∈ sched then (jobIDs[j]?).map (fun id => (id, wait id)) else f j := by
  intro sched
  induction sched with
  | nil => intro f j _; simp [runSched]
  | cons i rest ih =>
    intro f j hb
    have hi : i < jobIDs.length := hb i (List.mem_cons_self _ _)
    have hgi : jobIDs[i]? = some jobIDs[i] := List.getElem?_eq_getElem hi
    simp only [runSched, hgi]
    rw [ih _ j (fun x hx => hb x (List.mem_cons_of_mem _ hx))]
    by_cases hjr : j ∈ rest
    · rw [if_pos hjr, if_pos (List.mem_cons_of_mem _ hjr)]
    · rw [if_neg hjr]
      by_cases hji : j = i
      · subst hji
        rw [if_pos (List.mem_cons_self _ _), slotWrite, if_pos rfl, hgi]
        rfl
      · rw [slotWrite, if_neg hji,
          if_neg (fun hmem => (List.mem_cons.mp hmem).elim hji hjr)]

/-- Reading the slots in order yields one entry per job in argument order. -/
theorem readSlots_spec (wait : Int → WaitOutcome)
    (f : Nat → Option (Int × WaitOutcome)) :
    ∀ (l : List Int) (k : Nat),
    (∀ j, f (k + j) = (l[j]?).map (fun id => (id, wait id))) →
    readSlots f k l.length = l.map (fun id => some (id, wait id)) := by
  intro l
  induction l with
  | nil => intro k _; rfl
  | cons id0 rest ih =>
    intro k h
    rw [List.length_cons, readSlots]
    have h0 : f k = some (id0, wait id0) := by
      have := h 0
      simpa using this
    rw [h0, List.map_cons]
    congr 1
    apply ih (k + 1)
    intro j
    have := h (j + 1)
    rw [show k + 1 + j = k + (j + 1) by omega]
    simpa [List.getElem?_cons_succ] using this

/-- C4: for any completion schedule of the concurrent per-job waits (each
goroutine writes its own results slot; the schedule covers every job), the
results array read after the join holds exactly the per-job outcomes in the
original argument order — independent of completion order — the report lines
come out in argument order, and the aggregate exit outcome is `ok` exactly
when every wait passed, `exit1` otherwise. -/
theorem waitMultiple_ordered_aggregation (jobIDs : List Int)
    (wait : Int → WaitOutcome) (sched : List Nat) (quiet : Bool)
    (hb : ∀ i ∈ sched, i < jobIDs.length)
    (hc : ∀ j, j < jobIDs.length → j ∈ sched) :
    readSlots (runSched jobIDs wait sched (fun _ => none)) 0 jobIDs.length
      = jobIDs.map (fun id => some (id, wait id)) ∧
    (reportResults quiet (jobIDs.map (fun id => (id, wait id)))).2
      = (if jobIDs.all (fun id => wait id == .pass) then CmdOut.ok else CmdOut.exit1) ∧
    (reportResults false (jobIDs.map (fun id => (id, wait id)))).1
      = jobIDs.filterMap (fun id => reportLine id (wait id)) := by
  refine ⟨?_, ?_, ?_⟩
  · apply readSlots_spec
    intro j
    rw [Nat.zero_add]
    rw [runSched_slot jobIDs wait sched _ j hb]
    by_cases hj : j < jobIDs.length
    · rw [if_pos (hc j hj)]
    · rw [if_neg (fun hmem => hj (hb j hmem))]
      rw [List.getElem?_eq_none (Nat.le_of_not_lt hj)]
      rfl
  · rw [reportResults]
    have ha : (jobIDs.map (fun id => (id, wait id))).any
        (fun p => !(p.2 == WaitOutcome.pass))
        = jobIDs.any (fun id => !(wait id == WaitOutcome.pass)) :=
      any_map_general jobIDs _ _
    rw [ha, any_neg_eq_not_all]
    cases jobIDs.all (fun id => wait id == WaitOutcome.pass) <;> rfl
  · rw [reportResults]
    simp only [Bool.false_eq_true, if_false]
    rw [List.filterMap_map]
    rfl

/-- C4 witness: three jobs, two passing and one failing, completing in the
scrambled schedule `[2, 0, 1]`: the results read back in argument order and
the aggregate outcome is `exit1`. -/
theorem waitMultiple_ordered_aggregation_witness :
    readSlots (runSched [10, 20, 30]
        (fun id => if id == 20 then .failVerdict else .pass) [2, 0, 1]
        (fun _ => none)) 0 3
      = [10, 20, 30].map (fun id =>
          some (id, if id == 20 then WaitOutcome.failVerdict else .pass)) ∧
    (reportResults false ([10, 20, 30].map (fun id =>
        (id, if id == 20 then WaitOutcome.failVerdict else .pass)))).2
      = (if [10, 20, 30].all (fun id =>
            (if id == 20 then WaitOutcome.failVerdict else .pass) == .pass)
         then CmdOut.ok else CmdOut.exit1) ∧
    (reportResults false ([10, 20, 30].map (fun id =>
        (id, if id == 20 then WaitOutcome.failVerdict else .pass)))).1
      = [10, 20, 30].filterMap (fun id =>
          reportLine id (if id == 20 then WaitOutcome.failVerdict else .pass)) :=
  waitMultiple_ordered_aggregation [10, 20, 30]
    (fun id => if id == 20 then .failVerdict else .pass) [2, 0, 1] false
    (by decide) (by decide)

/-! ## C8 — local resolution before daemon contact -/

theorem resolveAndWait_contacted (env : WaitEnv) (quiet : Bool) (ref : String)
    (fo : Option Int) : (resolveAndWait env quiet ref fo).contacted = true := by
  cases fo with
  | none => rfl
  | some id => cases h : env.waitForJob id <;> simp [resolveAndWait, waitOutcomeResult, h]

theorem resolveAndWait_good (env : WaitEnv) (quiet : Bool) (ref : String)
    (fo : Option Int) : GoodResult (resolveAndWait env quiet ref fo) := by
  cases fo with
  | none => simp [resolveAndWait, noJobResult, GoodResult, exitCode]
  | some id =>
    cases h : env.waitForJob id <;>
      simp [resolveAndWait, waitOutcomeResult, GoodResult, exitCode, h]

theorem resolveAndWait_quiet (env : WaitEnv) (ref : String) (fo : Option Int)
    (quiet : Bool) :
    (resolveAndWait env quiet ref fo).out = (resolveAndWait env false ref fo).out ∧
    (resolveAndWait env quiet ref fo).waited
        = (resolveAndWait env false ref fo).waited ∧
    (resolveAndWait env quiet ref fo).noJob
        = (resolveAndWait env false ref fo).noJob := by
  cases fo with
  | none => exact ⟨rfl, rfl, rfl⟩
  | some id =>
    cases h : env.waitForJob id <;>
      simp [resolveAndWait, waitOutcomeResult, h]

/-- The single-target tail reaches `ensureDaemon` exactly when its git-ref
validation passes (an empty ref — pure job-id target — always passes). -/
theorem waitSingleStep2_contacted (env : WaitEnv) (quiet : Bool) (ref : String)
    (jobID : Int) :
    (waitSingleStep2 env quiet ref jobID).contacted
      = (if ref = "" then true
         else (env.resolveSHA (env.repoRoot.getD "") ref).isSome) := by
  by_cases href : ref = ""
  · subst href
    rw [if_pos rfl]
    simp only [waitSingleStep2]
    rw [if_neg (by simp)]
    by_cases hd : env.daemonUp
    · rw [if_pos hd]
      exact resolveAndWait_contacted _ _ _ _
    · rw [if_neg hd]
  · rw [if_neg href]
    cases hs : env.resolveSHA (env.repoRoot.getD "") ref with
    | none => simp [waitSingleStep2, href, hs]
    | some h =>
      simp only [waitSingleStep2, hs]
      rw [if_neg (by simp)]
      by_cases hd : env.daemonUp
      · rw [if_pos hd]
        simp only [Option.isSome_some]
        exact resolveAndWait_contacted _ _ _ _
      · rw [if_neg hd]; rfl

/-- C8: every `wait` argument is resolved by purely local validation before
any daemon contact — with `--job` it is parsed as a positive integer job id
(git resolution never consulted); otherwise git-ref resolution is attempted
first, so numeric-looking SHAs resolve as refs, falling back to integer
parse; and the daemon is contacted only when every argument validated
locally (multi path: exactly when phase 1 succeeded; single path: exactly
when the local target resolution succeeded). -/
theorem wait_local_resolution_spec :
    (∀ (env : WaitEnv) (arg : String) (r : ResolvedArg),
       resolveArg env true arg = .ok r ↔
         ∃ id, parseInt64 arg = some id ∧ id > 0 ∧ r = .byID id) ∧
    (∀ (env : WaitEnv) (root arg sha : String),
       env.repoRoot = some root → env.resolveSHA root arg = some sha →
       resolveArg env false arg = .ok (.byRef sha arg)) ∧
    (∀ (env : WaitEnv) (arg : String) (id : Int),
       (match env.repoRoot with
        | some root => env.resolveSHA root arg = none
        | none => True) →
       parseInt64 arg = some id → id > 0 →
       resolveArg env false arg = .ok (.byID id)) ∧
    (∀ (env : WaitEnv) (args : List String) (force quiet : Bool),
       (waitMultipleModel env args force quiet).contacted = true ↔
         ∃ rs, phase1 env force args = .ok rs) ∧
    (∀ (env : WaitEnv) (shaFlag : String) (force quiet : Bool) (args : List String),
       (waitSingleModel env shaFlag force quiet args).contacted
         = (localTarget env shaFlag force args).isSome) := by
  refine ⟨?_, ?_, ?_, ?_, ?_⟩
  · intro env arg r
    constructor
    · intro h
      cases hp : parseInt64 arg with
      | none => simp [resolveArg, hp] at h
      | some id =>
        by_cases hid : id > 0
        · refine ⟨id, rfl, hid, ?_⟩
          simp only [resolveArg, if_pos rfl, hp, if_pos hid] at h
          injection h with h'
          exact h'.symm
        · simp [resolveArg, hp, hid] at h
    · rintro ⟨id, hp, hid, rfl⟩
      simp [resolveArg, hp, hid]
  · intro env root arg sha h1 h2
    simp [resolveArg, h1, h2]
  · intro env arg id hsha hp hid
    cases hroot : env.repoRoot with
    | none => simp [resolveArg, hroot, hp, hid]
    | some root =>
      rw [hroot] at hsha
      simp only at hsha
      simp [resolveArg, hroot, hsha, hp, hid]
  · intro env args force quiet
    cases hph : phase1 env force args with
    | error e =>
      simp only [waitMultipleModel, hph]
      constructor
      · intro h; exact absurd h (by simp)
      · rintro ⟨rs, hrs⟩; exact absurd hrs (by simp)
    | ok rs =>
      refine ⟨fun _ => ⟨rs, rfl⟩, fun _ => ?_⟩
      simp only [waitMultipleModel, hph]
      by_cases hd : env.daemonUp
      · rw [if_pos hd]
        cases phase3 env rs <;> rfl
      · rw [if_neg hd]
  · intro env shaFlag force quiet args
    by_cases hsf : shaFlag = ""
    · subst hsf
      simp only [waitSingleModel, localTarget]
      rw [if_neg (by simp), if_neg (by simp)]
      cases args with
      | nil =>
        dsimp only
        rw [waitSingleStep2_contacted]
        rw [if_neg (by simp)]
        cases hs : env.resolveSHA (env.repoRoot.getD "") "HEAD" <;> simp [hs]
      | cons arg rest =>
        dsimp only
        by_cases hforce : force
        · rw [if_pos hforce, if_pos hforce]
          cases hp : parseInt64 arg with
          | none => simp [mkLocalFail]
          | some id =>
            dsimp only
            by_cases hid : id > 0
            · rw [if_pos hid, if_pos hid]
              rw [waitSingleStep2_contacted]
              simp
            · rw [if_neg hid, if_neg hid]
              simp [mkLocalFail]
        · rw [if_neg hforce, if_neg hforce]
          cases hroot : env.repoRoot with
          | none =>
            simp only [Option.isSome_none]
            rw [if_neg (by simp), if_neg (by simp)]
            cases hp : parseInt64 arg with
            | none => simp [mkLocalFail]
            | some id =>
              dsimp only
              by_cases hid : id > 0
              · rw [if_pos hid, if_pos hid]
                rw [waitSingleStep2_contacted]
                simp
              · rw [if_neg hid, if_neg hid]
                simp [mkLocalFail]
          | some root =>
            cases hs : env.resolveSHA root arg with
            | some h1 =>
              simp only [Option.isSome_some]
              rw [if_pos (by simp [hs]), if_pos (by simp [hs])]
              rw [waitSingleStep2_contacted]
              by_cases harg : arg = ""
              · subst harg; simp
              · rw [if_neg harg]
                simp only [hroot, Option.getD_some]
                rw [hs]
                simp [harg]
            | none =>
              simp only [Option.isSome_none]
              rw [if_neg (by simp [hs]), if_neg (by simp [hs])]
              cases hp : parseInt64 arg with
              | none => simp [mkLocalFail]
              | some id =>
                dsimp only
                by_cases hid : id > 0
                · rw [if_pos hid, if_pos hid]
                  rw [waitSingleStep2_contacted]
                  simp
                · rw [if_neg hid, if_neg hid]
                  simp [mkLocalFail]
    · simp only [waitSingleModel, localTarget]
      rw [if_pos hsf, if_pos hsf]
      dsimp only
      rw [waitSingleStep2_contacted]
      rw [if_neg hsf, if_pos hsf]
      cases hs : env.resolveSHA (env.repoRoot.getD "") shaFlag <;> simp [hs]

/-- C8 witness: with the concrete environment, `--job 42` parses as a job
id; the numeric-looking SHA `123456` resolves as a git ref; `999` (not a
ref) falls back to a job id; and daemon contact happens exactly when local
validation succeeds, on both paths. -/
theorem wait_local_resolution_spec_witness :
    (resolveArg sampleEnv true "42" = .ok (.byID 42) ↔
       ∃ id, parseInt64 "42" = some id ∧ id > 0 ∧ ResolvedArg.byID 42 = .byID id) ∧
    resolveArg sampleEnv false "123456" = .ok (.byRef "sha-123456" "123456") ∧
    resolveArg sampleEnv false "999" = .ok (.byID 999) ∧
    ((waitMultipleModel sampleEnv ["abc123", "42"] true false).contacted = true ↔
       ∃ rs, phase1 sampleEnv true ["abc123", "42"] = .ok rs) ∧
    (waitSingleModel sampleEnv "" false false ["abc123"]).contacted
      = (localTarget sampleEnv "" false ["abc123"]).isSome := by
  refine ⟨?_, ?_, ?_, ?_, ?_⟩
  · exact wait_local_resolution_spec.1 sampleEnv "42" (.byID 42)
  · exact wait_local_resolution_spec.2.1 sampleEnv "/repo" "123456" "sha-123456"
      rfl rfl
  · exact wait_local_resolution_spec.2.2.1 sampleEnv "999" 999 rfl rfl (by decide)
  · exact wait_local_resolution_spec.2.2.2.1 sampleEnv ["abc123", "42"] true false
  · exact wait_local_resolution_spec.2.2.2.2 sampleEnv "" false false ["abc123"]

/-! ## C9 — exit-code discipline -/

theorem reportResults_good (quiet : Bool) (results : List (Int × WaitOutcome)) :
    ((reportResults quiet results).2 = .ok → ∀ p ∈ results, p.2 = .pass) ∧
    ((∃ p ∈ results, p.2 ≠ .pass) → (reportResults quiet results).2 = .exit1) := by
  constructor
  · intro h p hp
    rw [reportResults] at h
    by_cases hany : results.any (fun p => !(p.2 == WaitOutcome.pass)) = true
    · rw [if_pos hany] at h; exact absurd h (by simp)
    · have := List.any_eq_false.mp (Bool.eq_false_iff.mpr hany) p hp
      simpa using this
  · rintro ⟨p, hp, hne⟩
    rw [reportResults]
    rw [if_pos (List.any_eq_true.mpr ⟨p, hp, by simpa using hne⟩)]

theorem waitSingleStep2_good (env : WaitEnv) (quiet : Bool) (ref : String)
    (jobID : Int) : GoodResult (waitSingleStep2 env quiet ref jobID) := by
  unfold waitSingleStep2
  dsimp only
  repeat' split
  all_goals first
    | exact resolveAndWait_good _ _ _ _
    | simp [GoodResult, exitCode]

theorem waitSingleModel_good (env : WaitEnv) (shaFlag : String)
    (force quiet : Bool) (args : List String) :
    GoodResult (waitSingleModel env shaFlag force quiet args) := by
  unfold waitSingleModel
  dsimp only
  repeat' split
  all_goals first
    | exact waitSingleStep2_good _ _ _ _
    | simp [GoodResult, mkLocalFail, exitCode]

theorem waitMultipleModel_good (env : WaitEnv) (args : List String)
    (force quiet : Bool) : GoodResult (waitMultipleModel env args force quiet) := by
  unfold waitMultipleModel
  split
  · simp [GoodResult, exitCode]
  · split
    · split
      · simp [GoodResult, exitCode]
      · refine ⟨?_, ?_, ?_⟩
        · intro h
          dsimp only at h ⊢
          exact ⟨(reportResults_good quiet _).1 h, rfl⟩
        · intro hex
          dsimp only at hex ⊢
          have h2 := (reportResults_good quiet _).2 hex
          rw [h2]
          rfl
        · intro r hr
          dsimp only at hr
          exact absurd hr (by simp)
    · simp [GoodResult, exitCode]

theorem waitCmdModel_good (env : WaitEnv) (shaFlag : String)
    (force quiet : Bool) (args : List String) :
    GoodResult (waitCmdModel env shaFlag force quiet args) := by
  unfold waitCmdModel
  split
  · simp [GoodResult, mkLocalFail, exitCode]
  · split
    · simp [GoodResult, mkLocalFail, exitCode]
    · split
      · exact waitMultipleModel_good env args force quiet
      · exact waitSingleModel_good env shaFlag force quiet args

theorem waitSingleStep2_quiet (env : WaitEnv) (ref : String) (jobID : Int)
    (quiet : Bool) :
    (waitSingleStep2 env quiet ref jobID).out
        = (waitSingleStep2 env false ref jobID).out ∧
    (waitSingleStep2 env quiet ref jobID).waited
        = (waitSingleStep2 env false ref jobID).waited ∧
    (waitSingleStep2 env quiet ref jobID).noJob
        = (waitSingleStep2 env false ref jobID).noJob := by
  unfold waitSingleStep2
  dsimp only
  repeat' split
  all_goals first
    | exact resolveAndWait_quiet _ _ _ _
    | exact ⟨rfl, rfl, rfl⟩

theorem waitSingleModel_quiet (env : WaitEnv) (shaFlag : String) (force : Bool)
    (args : List String) (quiet : Bool) :
    (waitSingleModel env shaFlag force quiet args).out
        = (waitSingleModel env shaFlag force false args).out ∧
    (waitSingleModel env shaFlag force quiet args).waited
        = (waitSingleModel env shaFlag force false args).waited ∧
    (waitSingleModel env shaFlag force quiet args).noJob
        = (waitSingleModel env shaFlag force false args).noJob := by
  unfold waitSingleModel
  dsimp only
  repeat' split
  all_goals first
    | exact waitSingleStep2_quiet _ _ _ _
    | exact ⟨rfl, rfl, rfl⟩

theorem waitMultipleModel_quiet (env : WaitEnv) (args : List String)
    (force : Bool) (quiet : Bool) :
    (waitMultipleModel env args force quiet).out
        = (waitMultipleModel env args force false).out ∧
    (waitMultipleModel env args force quiet).waited
        = (waitMultipleModel env args force false).waited ∧
    (waitMultipleModel env args force quiet).noJob
        = (waitMultipleModel env args force false).noJob := by
  unfold waitMultipleModel
  repeat' split
  all_goals exact ⟨rfl, rfl, rfl⟩

theorem waitCmdModel_quiet (env : WaitEnv) (shaFlag : String) (force : Bool)
    (args : List String) (quiet : Bool) :
    (waitCmdModel env shaFlag force quiet args).out
        = (waitCmdModel env shaFlag force false args).out ∧
    (waitCmdModel env shaFlag force quiet args).waited
        = (waitCmdModel env shaFlag force false args).waited ∧
    (waitCmdModel env shaFlag force quiet args).noJob
        = (waitCmdModel env shaFlag force false args).noJob := by
  unfold waitCmdModel
  split
  · exact ⟨rfl, rfl, rfl⟩
  · split
    · exact ⟨rfl, rfl, rfl⟩
    · split
      · exact waitMultipleModel_quiet env args force quiet
      · exact waitSingleModel_quiet env shaFlag force args quiet

/-- C9: the wait command exits 0 (`ok`) only if every awaited job ended with
a pass verdict and no "no job found" occurred; any non-pass outcome yields
exit code 1; "no job found" is a normal, reportable `exitError{1}` outcome,
never a crash; the exit code is always 0 or 1; and `--quiet` changes only
the printed lines, never the outcome. -/
theorem wait_exit_codes_spec (env : WaitEnv) (shaFlag : String) (force : Bool)
    (args : List String) (quiet : Bool) :
    ((waitCmdModel env shaFlag force quiet args).out
        = (waitCmdModel env shaFlag force false args).out) ∧
    ((waitCmdModel env shaFlag force quiet args).out = .ok →
       (∀ p ∈ (waitCmdModel env shaFlag force quiet args).waited, p.2 = .pass) ∧
       (waitCmdModel env shaFlag force quiet args).noJob = none) ∧
    ((∃ p ∈ (waitCmdModel env shaFlag force quiet args).waited, p.2 ≠ .pass) →
       exitCode (waitCmdModel env shaFlag force quiet args).out = 1) ∧
    (∀ r, (waitCmdModel env shaFlag force quiet args).noJob = some r →
       (waitCmdModel env shaFlag force quiet args).out = .exit1) ∧
    (exitCode (waitCmdModel env shaFlag force quiet args).out = 0 ∨
     exitCode (waitCmdModel env shaFlag force quiet args).out = 1) := by
  have hg := waitCmdModel_good env shaFlag force quiet args
  refine ⟨(waitCmdModel_quiet env shaFlag force args quiet).1,
    hg.1, hg.2.1, hg.2.2, ?_⟩
  cases (waitCmdModel env shaFlag force quiet args).out <;> simp [exitCode]

/-- C9 witness: with the concrete environment, waiting on `abc123` (job 7,
pass) exits 0 with all outcomes pass; waiting on job `42` (fail verdict)
exits 1; waiting on HEAD (no job for its commit) reports "no job found" as
the `exit1` outcome; and quiet mode leaves every outcome unchanged. -/
theorem wait_exit_codes_spec_witness :
    ((waitCmdModel sampleEnv "" false true ["abc123"]).out
        = (waitCmdModel sampleEnv "" false false ["abc123"]).out) ∧
    ((∀ p ∈ (waitCmdModel sampleEnv "" false false ["abc123"]).waited,
        p.2 = .pass) ∧
      (waitCmdModel sampleEnv "" false false ["abc123"]).noJob = none) ∧
    exitCode (waitCmdModel sampleEnv "" false false ["42"]).out = 1 ∧
    (waitCmdModel sampleEnv "" false false []).out = .exit1 ∧
    (exitCode (waitCmdModel sampleEnv "" false false ["abc123"]).out = 0 ∨
     exitCode (waitCmdModel sampleEnv "" false false ["abc123"]).out = 1) := by
  refine ⟨?_, ?_, ?_, ?_, ?_⟩
  · exact (wait_exit_codes_spec sampleEnv "" false ["abc123"] true).1
  · exact (wait_exit_codes_spec sampleEnv "" false ["abc123"] false).2.1 (by decide)
  · exact (wait_exit_codes_spec sampleEnv "" false ["42"] false).2.2.1 (by decide)
  · exact (wait_exit_codes_spec sampleEnv "" false [] false).2.2.2.1 "HEAD" (by decide)
  · exact (wait_exit_codes_spec sampleEnv "" false ["abc123"] false).2.2.2.2

end Roborev
